import Mathlib

set_option maxRecDepth 4000

/-!
Verification development for the notebook discovery and enrichment pipeline
implemented in scripts/discover_notebooks.py and scripts/get_titles.py.

Strings are modelled as lists of characters (ASCII character model: the
Python methods lower and strip act on Unicode, but every character class the
scripts test for is ASCII).  The Python regular-expression substitutions are
embedded as executable scanners on character lists; each scanner carries a
comment explaining why the deterministic implementation agrees with the
backtracking regex semantics for its particular pattern.  The page-automation
driver and the question-answering service are external collaborators: their
responses enter the model as explicit function arguments (one outcome per
loop iteration), and an exception thrown by a collaborator is modelled by a
dedicated outcome constructor.
-/

abbrev Str := List Char

/-! ## Python string primitives -/

/-- Whitespace characters of the Python default strip and of the regex
whitespace class, restricted to ASCII. -/
def isPyWs (c : Char) : Bool :=
  c == ' ' || c == '\t' || c == '\n' || c == '\r' || c == '\x0b' || c == '\x0c'

/-- Drop trailing characters satisfying p: the right half of Python strip. -/
def dropTrailP (p : Char → Bool) : Str → Str
  | [] => []
  | c :: rest =>
    let r := dropTrailP p rest
    if r.isEmpty && p c then [] else c :: r

/-- Python strip with no argument: remove leading and trailing whitespace. -/
def pyStripWs (s : Str) : Str := dropTrailP isPyWs (s.dropWhile isPyWs)

/-- Python strip with a one-character argument: remove that character from
both ends. -/
def stripChar (ch : Char) (s : Str) : Str :=
  dropTrailP (· == ch) (s.dropWhile (· == ch))

/-- Collapse every run of hyphens to a single hyphen.  The Boolean records
whether the previously emitted character was a hyphen.  This computes the
fixed point of the loop in discover_notebooks.py line 264 that replaces two
adjacent hyphens by one until none remain, and equally the substitution of
the regex hyphen-run pattern on line 63: both send each maximal run of k
hyphens to a single hyphen and leave all other characters unchanged. -/
def collapseGo : Bool → Str → Str
  | _, [] => []
  | b, c :: rest =>
    if c == '-' then
      if b then collapseGo true rest else '-' :: collapseGo true rest
    else c :: collapseGo false rest

def collapseHyphens (s : Str) : Str := collapseGo false s

/-! ## Content normalizer: clean_response (discover_notebooks.py lines 22-30) -/

/-- Prefix match for the pattern of 1-3 digits followed by 3 or more dots
(discover_notebooks.py line 25).  Backtracking over the digit counter is
vacuous: if the leading digit run is longer than 3, the character after any
shorter digit prefix is still a digit and never a dot, so the match fails;
if the run has length 1-3 the whole run must be consumed before the dots.
The dot quantifier is greedy and nothing follows it, so it consumes every
dot. -/
def matchNumEllipsis (s : Str) : Option Str :=
  let ds := s.takeWhile Char.isDigit
  if ds.length = 0 ∨ 3 < ds.length then none
  else
    let rest := s.drop ds.length
    let dots := rest.takeWhile (· == '.')
    if 3 ≤ dots.length then some (rest.drop dots.length) else none

/-- Left-to-right scan deleting every non-overlapping match of the
digits-then-dots pattern, with fuel; a match always consumes at least one
character, so fuel equal to the length of the list suffices. -/
def stripNumEllipsisGo : Nat → Str → Str
  | 0, s => s
  | _ + 1, [] => []
  | fuel + 1, c :: rest =>
    match matchNumEllipsis (c :: rest) with
    | some after => stripNumEllipsisGo fuel after
    | none => c :: stripNumEllipsisGo fuel rest

def stripNumEllipsis (s : Str) : Str := stripNumEllipsisGo s.length s

/-- Prefix match for a bracketed citation: an opening bracket, one or more
digits, a closing bracket (discover_notebooks.py line 26).  The digit
quantifier is greedy; backtracking is vacuous because a shorter digit prefix
is followed by a digit, never by the closing bracket. -/
def matchBracketCite : Str → Option Str
  | [] => none
  | c :: rest =>
    if c = '[' then
      let ds := rest.takeWhile Char.isDigit
      if ds.length = 0 then none
      else
        match rest.drop ds.length with
        | ']' :: r => some r
        | _ => none
    else none

def stripBracketCitesGo : Nat → Str → Str
  | 0, s => s
  | _ + 1, [] => []
  | fuel + 1, c :: rest =>
    match matchBracketCite (c :: rest) with
    | some after => stripBracketCitesGo fuel after
    | none => c :: stripBracketCitesGo fuel rest

def stripBracketCites (s : Str) : Str := stripBracketCitesGo s.length s

/-- Deletion of standalone 1-2 digit runs (discover_notebooks.py line 27):
the pattern matches 1 or 2 digits with look-arounds forbidding an adjacent
digit on either side, which is exactly a maximal digit run of length 1 or 2;
maximal runs of 3 or more digits admit no match position at all.  The scan
consumes whole maximal runs, so each examined run start has a non-digit (or
the string start) before it. -/
def stripBareDigitsGo : Nat → Str → Str
  | 0, s => s
  | _ + 1, [] => []
  | fuel + 1, c :: rest =>
    if c.isDigit then
      let run := (c :: rest).takeWhile Char.isDigit
      let after := (c :: rest).drop run.length
      if run.length ≤ 2 then stripBareDigitsGo fuel after
      else run ++ stripBareDigitsGo fuel after
    else c :: stripBareDigitsGo fuel rest

def stripBareDigits (s : Str) : Str := stripBareDigitsGo s.length s

/-- Sentinel that starts the follow-up reminder block removed by
discover_notebooks.py line 29. -/
def reminderMarker : Str := "EXTREMELY IMPORTANT:".toList

/-- Remove everything from the first occurrence of the reminder sentinel to
the end of the string: the substitution on line 29 uses the any-character
pattern in dot-all mode after the sentinel, so it erases the whole tail. -/
def truncAtMarker : Str → Str
  | [] => []
  | c :: rest =>
    if reminderMarker.isPrefixOf (c :: rest) then [] else c :: truncAtMarker rest

/-- clean_response from discover_notebooks.py lines 22-30: the four
substitutions in source order, then strip. -/
def clean_response (text : Str) : Str :=
  pyStripWs (truncAtMarker (stripBareDigits (stripBracketCites (stripNumEllipsis text))))

/-! ## Content normalizer: extract_description (discover_notebooks.py lines 33-47) -/

/-- First paragraph: the text before the first blank-line separator.  Python
split on a double newline never returns an empty list, so element 0 of the
split is exactly the text up to the first occurrence of the separator. -/
def firstPara : Str → Str
  | [] => []
  | c :: rest =>
    if c = '\n' ∧ rest.head? = some '\n' then [] else c :: firstPara rest

/-- Index of the last occurrence of a character, as Python rfind but with an
Option instead of the -1 sentinel. -/
def rfindP (ch : Char) : Str → Option Nat
  | [] => none
  | c :: rest =>
    match rfindP ch rest with
    | some i => some (i + 1)
    | none => if c == ch then some 0 else none

/-- extract_description from discover_notebooks.py lines 33-47.  The Python
comparison of the rfind result with 200 is false when rfind returns the -1
sentinel, which is the none branch here. -/
def extract_description (raw : Str) : Str :=
  let cleaned := clean_response raw
  let desc := pyStripWs (firstPara cleaned)
  if 500 < desc.length then
    let truncated := desc.take 500
    match rfindP '.' truncated with
    | some i => if 200 < i then truncated.take (i + 1) else truncated ++ ['.', '.', '.']
    | none => truncated ++ ['.', '.', '.']
  else desc

/-! ## Content normalizer: extract_topics (discover_notebooks.py lines 50-75)

The header pattern is: a bullet character, at least one whitespace, up to two
asterisks, a lazy nonempty group of non-newline characters, up to two
asterisks, optional whitespace, a colon.  The scanners below implement the
backtracking search of the regex engine: greedy quantifiers try longer
consumptions first, the lazy group tries shorter ones first. -/

def bulletChar (c : Char) : Bool := c == '•' || c == '-' || c == '*'

/-- Match the tail of the header pattern (up to two asterisks, optional
whitespace, colon) at the front of the input, returning what follows the
colon.  Backtracking is vacuous here: taking fewer than the greedy number of
asterisks leaves an asterisk at the front, which is neither whitespace nor a
colon, and taking less whitespace leaves a whitespace character, which is
not a colon. -/
def tailColon (s : Str) : Option Str :=
  let a := min 2 (s.takeWhile (· == '*')).length
  let s1 := s.drop a
  let t := (s1.takeWhile isPyWs).length
  match s1.drop t with
  | ':' :: rest => some rest
  | _ => none

/-- Lazy group search: try group lengths from 1 upward; a group may not
contain a newline because the any-character class excludes it outside
dot-all mode.  Returns the group text and the rest after the full match. -/
def lazyGroup (s : Str) : Option (Str × Str) :=
  (List.range s.length).findSome? fun n0 =>
    let n := n0 + 1
    let g := s.take n
    if g.all (· != '\n') then
      match tailColon (s.drop n) with
      | some rest => some (g, rest)
      | none => none
    else none

/-- Greedy search over the asterisk count before the lazy group: try the
maximal count first, as the regex engine does. -/
def starsThenGroup (s : Str) : Option (Str × Str) :=
  let m := min 2 (s.takeWhile (· == '*')).length
  (List.range (m + 1)).findSome? fun j => lazyGroup (s.drop (m - j))

/-- Attempt to match the whole header pattern at the current position: a
bullet character, then at least one whitespace character tried greedily
(longest run first, shrinking on failure, never below one). -/
def tryMatchHeader : Str → Option (Str × Str)
  | [] => none
  | b :: s1 =>
    if bulletChar b then
      let w := (s1.takeWhile isPyWs).length
      if w = 0 then none
      else (List.range w).findSome? fun j => starsThenGroup (s1.drop (w - j))
    else none

/-- All group-1 texts of the non-overlapping header matches, scanning left to
right as finditer does.  A successful match consumes at least one character,
so fuel equal to the input length suffices. -/
def findHeadersGo : Nat → Str → List Str
  | 0, _ => []
  | _ + 1, [] => []
  | fuel + 1, c :: rest =>
    match tryMatchHeader (c :: rest) with
    | some (g, after) => g :: findHeadersGo fuel after
    | none => findHeadersGo fuel rest

def findHeaders (s : Str) : List Str := findHeadersGo s.length s

def isAlnumLower (c : Char) : Bool := ('a' ≤ c && c ≤ 'z') || ('0' ≤ c && c ≤ '9')

/-- Slug conversion of one topic label, discover_notebooks.py lines 61-63:
lower-case, spaces and slashes to hyphens, strip every character outside
lower-case letters, digits and hyphens, collapse hyphen runs, strip edge
hyphens. -/
def slugifyTopic (topic : Str) : Str :=
  let s := (topic.map Char.toLower).map fun c => if c = ' ' then '-' else c
  let s := s.map fun c => if c = '/' then '-' else c
  let s := s.filter fun c => isAlnumLower c || c == '-'
  stripChar '-' (collapseHyphens s)

/-- Filtering of one matched label, discover_notebooks.py lines 58-65: strip
whitespace, strip asterisks, strip whitespace again; keep labels of length
strictly between 3 and 80; slugify; keep nonempty slugs of length above 2. -/
def topicOfLabel (g : Str) : Option Str :=
  let topic := pyStripWs (stripChar '*' (pyStripWs g))
  if 3 < topic.length ∧ topic.length < 80 then
    let slug := slugifyTopic topic
    if slug ≠ [] ∧ 2 < slug.length then some slug else none
  else none

/-- Ordered topic slugs before deduplication. -/
def topicCandidates (raw : Str) : List Str :=
  (findHeaders (clean_response raw)).filterMap topicOfLabel

/-- Deduplication preserving first-seen order, discover_notebooks.py lines
67-73: the growing seen set is modelled by an accumulator list, membership
being all the code uses. -/
def dedupKeepFirstAux (seen : List Str) : List Str → List Str
  | [] => []
  | t :: rest =>
    if t ∈ seen then dedupKeepFirstAux seen rest
    else t :: dedupKeepFirstAux (t :: seen) rest

/-- extract_topics from discover_notebooks.py lines 50-75: slugified labels,
deduplicated keeping first occurrences, capped at 15. -/
def extract_topics (raw : Str) : List Str :=
  (dedupKeepFirstAux [] (topicCandidates raw)).take 15

/-- Index of the first occurrence of a string in a list of strings (length of
the list when absent); used to state the first-seen ordering property. -/
def firstIdx (a : Str) : List Str → Nat
  | [] => 0
  | b :: rest => if b = a then 0 else firstIdx a rest + 1

/-- Decision procedure for the topic-slug shape: one or more groups of
lower-case letters and digits separated by single hyphens.  The Boolean state
is true exactly when the next character must start a new group, so a hyphen
is not allowed there. -/
def slugRun : Bool → Str → Bool
  | needAl, [] => !needAl
  | needAl, c :: rest =>
    if isAlnumLower c then slugRun false rest
    else if c == '-' then !needAl && slugRun true rest
    else false

def matchesSlugRe (s : Str) : Bool := !s.isEmpty && slugRun true s

/-! ## Discovery orchestrator (discover_notebooks.py lines 78-168)

The page-automation driver is the external collaborator.  Its observable
answers are passed in as functions: probe gives the row count seen by the
hydration poll on each attempt, and resolve gives the outcome of the
click-and-wait cycle of each loop iteration of the row resolver.  An
exception raised inside the per-row try block is the threw outcome; the
source catches it and records a null URL (lines 150-152). -/

structure RowData where
  title : Str
  cellTexts : List Str
deriving DecidableEq

inductive ResolveOutcome where
  | success (url : Str)
  | notFound
  | threw
deriving DecidableEq

structure Notebook where
  title : Str
  url : Option Str
  sources : Str
  date : Str
deriving DecidableEq

/-- URL recorded for one row: the captured page URL on success, null when the
row could not be relocated (lines 147-149) or when the click or the wait
raised (lines 150-152). -/
def urlOfOutcome : ResolveOutcome → Option Str
  | .success u => some u
  | .notFound => none
  | .threw => none

/-- One snapshot entry, discover_notebooks.py lines 123-152: auxiliary cells
1 and 2 become sources and date, defaulting to the empty string. -/
def resolveRow (rd : RowData) (oc : ResolveOutcome) : Notebook :=
  { title := rd.title
    url := urlOfOutcome oc
    sources := rd.cellTexts.getD 1 []
    date := rd.cellTexts.getD 2 [] }

/-- The row-resolution loop, lines 122-166: one entry appended per extracted
row, in order, whatever the outcome. -/
def resolveRowsGo (resolve : Nat → ResolveOutcome) : Nat → List RowData → List Notebook
  | _, [] => []
  | i, rd :: rest => resolveRow rd (resolve i) :: resolveRowsGo resolve (i + 1) rest

/-- Hydration poll, lines 86-94: up to 4 attempts, stopping at the first
positive count; the final value is the count of the last attempt made. -/
def awaitRows (probe : Nat → Nat) : Nat :=
  (List.range 4).foldl (fun acc i => if 0 < acc then acc else probe i) 0

/-- discover_notebooks, lines 78-168: if hydration never yields a row the
function returns the empty list (lines 96-97); otherwise every extracted row
is resolved in order.  The row extraction itself happens in page script, so
the extracted rows are an input here. -/
def discover_notebooks (probe : Nat → Nat) (rows : List RowData)
    (resolve : Nat → ResolveOutcome) : List Notebook :=
  if awaitRows probe = 0 then [] else resolveRowsGo resolve 0 rows

/-! ## Library and reconciliation (discover_notebooks.py lines 242-288) -/

structure NbRecord where
  id : Str
  url : Option Str
  name : Str
  description : Str
  topics : List Str
  content_types : List Str
  use_cases : List Str
  tags : List Str
  created_at : Str
  updated_at : Str
  use_count : Nat
  last_used : Option Str
deriving DecidableEq

/-- The persisted library: an insertion-ordered mapping from slug to record,
modelled as an association list, as Python dicts preserve insertion order. -/
structure Library where
  notebooks : List (Str × NbRecord)
  active_notebook_id : Option Str
  updated_at : Option Str
deriving DecidableEq

def lookupRecord : List (Str × NbRecord) → Str → Option NbRecord
  | [], _ => none
  | (k, v) :: rest, s => if k = s then some v else lookupRecord rest s

/-- Dict assignment: replace in place if the key exists, append otherwise. -/
def insertRecord : List (Str × NbRecord) → Str → NbRecord → List (Str × NbRecord)
  | [], k, v => [(k, v)]
  | (k1, v1) :: rest, k, v =>
    if k1 = k then (k, v) :: rest else (k1, v1) :: insertRecord rest k v

/-- URL values of the existing records, line 249. -/
def existingUrls (nbs : List (Str × NbRecord)) : List (Option Str) :=
  nbs.map fun p => p.2.url

/-- Python truthiness of an optional URL string, as tested on line 251:
false for null and for the empty string. -/
def urlTruthy : Option Str → Bool
  | none => false
  | some u => !u.isEmpty

/-- Snapshot entries treated as new, line 251: truthy URL not among the
existing URL values. -/
def newNotebooks (lib : Library) (snapshot : List Notebook) : List Notebook :=
  let exUrls := existingUrls lib.notebooks
  snapshot.filter fun nb => urlTruthy nb.url && !(decide (nb.url ∈ exUrls))

/-- Slug derivation, lines 262-266: lower-case, strip surrounding whitespace,
replace space characters by hyphens (the ampersand replacement on line 263
replaces the character by itself and is the identity), collapse hyphen runs,
strip edge hyphens. -/
def slugOfTitle (t : Str) : Str :=
  let s := pyStripWs (t.map Char.toLower)
  let s := s.map fun c => if c = ' ' then '-' else c
  stripChar '-' (collapseHyphens s)

/-- Fresh record inserted for a new notebook, lines 268-281. -/
def mkRecord (slug : Str) (nb : Notebook) (now : Str) : NbRecord :=
  { id := slug, url := nb.url, name := nb.title, description := [], topics := []
    content_types := [], use_cases := [], tags := []
    created_at := now, updated_at := now, use_count := 0, last_used := none }

/-- One insertion step of the sync loop, lines 261-283. -/
def reconcileStep (now : Str) (acc : List (Str × NbRecord) × List Str) (nb : Notebook) :
    List (Str × NbRecord) × List Str :=
  let slug := slugOfTitle nb.title
  (insertRecord acc.1 slug (mkRecord slug nb now), acc.2 ++ [slug])

/-- Reconciliation under the sync flag, lines 249-288: filter the snapshot to
the new entries, insert a fresh record per new entry, and refresh the
library-level timestamp only when at least one entry was new (the insert
block runs under the guard on line 254). -/
def reconcile (lib : Library) (snapshot : List Notebook) (now : Str) :
    Library × List Str :=
  let newNbs := newNotebooks lib snapshot
  let folded := newNbs.foldl (reconcileStep now) (lib.notebooks, [])
  if newNbs.isEmpty then (lib, [])
  else ({ lib with notebooks := folded.1, updated_at := some now }, folded.2)

/-- Number of records carrying a given URL. -/
def countUrl : List (Str × NbRecord) → Str → Nat
  | [], _ => 0
  | p :: rest, u => (if p.2.url = some u then 1 else 0) + countUrl rest u

/-! ## Enrichment driver (discover_notebooks.py lines 171-218)

The question-answering collaborator is modelled by one outcome per loop
iteration: an answer string, or an exception (caught on lines 207-208).  The
timestamps written per record and at library level are inputs.  A missing
slug would raise an uncaught key error on line 179, modelled by a none
result; on the normal path the library is written back to disk at the end
(lines 212-215), recorded by the saved flag of the outcome. -/

inductive AskOutcome where
  | answered (raw : Str)
  | threw
deriving DecidableEq

def answeredNonEmpty : AskOutcome → Bool
  | .answered raw => !raw.isEmpty
  | .threw => false

/-- Number of loop iterations in a window that receive a truthy answer. -/
def countAnswered (ask : Nat → AskOutcome) : Nat → Nat → Nat
  | _, 0 => 0
  | i, n + 1 => (if answeredNonEmpty (ask i) then 1 else 0) + countAnswered ask (i + 1) n

/-- The enrichment loop, lines 178-210.  A truthy answer writes the
description, the topics when the extracted list is nonempty (the write on
line 199 is guarded), and the per-record timestamp, and bumps the counter;
a falsy answer or an exception skips the record. -/
def enrichGo (ask : Nat → AskOutcome) (recNow : Nat → Str) :
    List Str → Nat → List (Str × NbRecord) → Nat → Option (List (Str × NbRecord) × Nat)
  | [], _, nbs, count => some (nbs, count)
  | slug :: rest, i, nbs, count =>
    match lookupRecord nbs slug with
    | none => none
    | some nb =>
      match ask i with
      | .threw => enrichGo ask recNow rest (i + 1) nbs count
      | .answered raw =>
        if raw.isEmpty then enrichGo ask recNow rest (i + 1) nbs count
        else
          let nb1 := { nb with
            description := extract_description raw
            topics := if (extract_topics raw).isEmpty then nb.topics else extract_topics raw
            updated_at := recNow i }
          enrichGo ask recNow rest (i + 1) (insertRecord nbs slug nb1) (count + 1)

structure EnrichOutcome where
  notebooks : List (Str × NbRecord)
  libUpdatedAt : Str
  savedToFile : Bool
  enriched : Nat
deriving DecidableEq

/-- enrich_notebooks, lines 171-218: run the loop, then unconditionally
refresh the library timestamp and write the library file, returning the
count of records updated. -/
def enrich_notebooks (lib : Library) (slugs : List Str) (ask : Nat → AskOutcome)
    (recNow : Nat → Str) (libNow : Str) : Option EnrichOutcome :=
  match enrichGo ask recNow slugs 0 lib.notebooks 0 with
  | none => none
  | some (nbs, count) =>
    some { notebooks := nbs, libUpdatedAt := libNow, savedToFile := true, enriched := count }

/-- Per-record effect of one iteration, used to state what the loop does to
each record. -/
def applyAsk (nb : NbRecord) (oc : AskOutcome) (now : Str) : NbRecord :=
  match oc with
  | .threw => nb
  | .answered raw =>
    if raw.isEmpty then nb
    else
      { nb with
        description := extract_description raw
        topics := if (extract_topics raw).isEmpty then nb.topics else extract_topics raw
        updated_at := now }

/-! ## Title reconciliation (get_titles.py lines 13-44)

The page is modelled by its reported tab title and by the ordered candidate
values of the fallback selectors: none when the element is absent or the
query raised (the except on lines 39-40 just continues), otherwise the value
attribute or inner text the code reads. -/

def nlmMarker : Str := " - NotebookLM".toList

def nlmPlaceholder : Str := "NotebookLM".toList

/-- Python substring containment. -/
def containsSub (pat s : Str) : Bool :=
  (List.range (s.length + 1)).any fun i => pat.isPrefixOf (s.drop i)

/-- Python replace with the empty replacement: delete every non-overlapping
occurrence of the pattern, scanning left to right. -/
def removeSubGo (pat : Str) : Nat → Str → Str
  | 0, s => s
  | _ + 1, [] => []
  | fuel + 1, c :: rest =>
    if pat.isPrefixOf (c :: rest) then removeSubGo pat fuel ((c :: rest).drop pat.length)
    else c :: removeSubGo pat fuel rest

def removeSub (pat s : Str) : Str := removeSubGo pat s.length s

structure TitlePage where
  pageTitle : Str
  fallbacks : List (Option Str)
deriving DecidableEq

/-- Fallback probing, get_titles.py lines 31-40: first candidate whose
stripped value is truthy and longer than 2 characters, returned stripped. -/
def findFallback : List (Option Str) → Option Str
  | [] => none
  | none :: rest => findFallback rest
  | some v :: rest =>
    if !v.isEmpty && !(pyStripWs v).isEmpty && decide (2 < (pyStripWs v).length) then
      some (pyStripWs v)
    else findFallback rest

/-- get_notebook_title, get_titles.py lines 13-44.  The first branch fires
when the tab title contains the marker anywhere (a substring test, line 24)
and deletes every occurrence before stripping; a result that is the empty
string is falsy, so the guard on line 30 sends it to the fallback probing. -/
def get_notebook_title (pg : TitlePage) : Option Str :=
  let pt := pg.pageTitle
  let fromTitle : Option Str :=
    if !pt.isEmpty && containsSub nlmMarker pt then
      some (pyStripWs (removeSub nlmMarker pt))
    else if !pt.isEmpty && !(pyStripWs pt).isEmpty && decide (pyStripWs pt ≠ nlmPlaceholder) then
      some (pyStripWs pt)
    else none
  match fromTitle with
  | some t => if t.isEmpty then findFallback pg.fallbacks else some t
  | none => findFallback pg.fallbacks

/-! ## Definitions taken from the words of the specification

These definitions are written from the sentences of the specification (not
from the source) so that refinement claims can compare the two.  Each one
names the sentence it models. -/

/-- Modelled from the spec: slug derivation as the claim words it, namely
lower-case the title, replace whitespace with hyphens, collapse repeated
hyphens, and trim (edge hyphens). -/
def slugSpecClaim (t : Str) : Str :=
  let s := t.map Char.toLower
  let s := s.map fun c => if isPyWs c then '-' else c
  stripChar '-' (collapseHyphens s)

/-- Modelled from the amended claim: trim surrounding whitespace and
lower-case the title, replace space characters (the ASCII space only, not
every whitespace character) with hyphens, collapse repeated hyphens, and
trim leading and trailing hyphens. -/
def slugSpecAmended (t : Str) : Str :=
  let s := pyStripWs (t.map Char.toLower)
  let s := s.map fun c => if c = ' ' then '-' else c
  stripChar '-' (collapseHyphens s)

/-- Modelled from the claim: fallback probing accepting the first non-empty
candidate longer than 2 characters. -/
def fallbackByClaim : List (Option Str) → Option Str
  | [] => none
  | none :: rest => fallbackByClaim rest
  | some v :: rest =>
    if !v.isEmpty && decide (2 < v.length) then some v else fallbackByClaim rest

/-- Modelled from the claim: title strategy in which the marker is treated as
a suffix that is stripped when the title ends with it, the raw title is
otherwise accepted when non-empty and distinct from the placeholder, and the
fallbacks are probed last. -/
def check_title_claim (pg : TitlePage) : Option Str :=
  if nlmMarker.isSuffixOf pg.pageTitle then
    some (pg.pageTitle.take (pg.pageTitle.length - nlmMarker.length))
  else if !pg.pageTitle.isEmpty && decide (pg.pageTitle ≠ nlmPlaceholder) then
    some pg.pageTitle
  else fallbackByClaim pg.fallbacks

/-- Modelled from the amended claim: when the tab title contains the marker
anywhere, every occurrence is deleted and the remainder trimmed, an empty
remainder falling through to the fallbacks; otherwise the trimmed raw title
is accepted when non-empty and distinct from the placeholder; otherwise the
fallback elements are probed in order and the first candidate whose trimmed
value is non-empty and longer than 2 characters is returned trimmed; null
when nothing is found. -/
def check_title_amended (pg : TitlePage) : Option Str :=
  let pt := pg.pageTitle
  let fromTitle : Option Str :=
    if !pt.isEmpty && containsSub nlmMarker pt then
      some (pyStripWs (removeSub nlmMarker pt))
    else if !pt.isEmpty && !(pyStripWs pt).isEmpty && decide (pyStripWs pt ≠ nlmPlaceholder) then
      some (pyStripWs pt)
    else none
  match fromTitle with
  | some t => if t.isEmpty then findFallback pg.fallbacks else some t
  | none => findFallback pg.fallbacks

/-! ## Auxiliary predicate for the slug-shape proof -/

/-- No two adjacent hyphens anywhere in the string. -/
def noDoubleHyphen : Str → Bool
  | [] => true
  | [_] => true
  | a :: b :: rest => !(a == '-' && b == '-') && noDoubleHyphen (b :: rest)

/-! ## Concrete fixtures used by witnesses and counterexamples -/

def c2nb : Notebook := { title := ['t'], url := some [], sources := [], date := [] }

def c2lib : Library := { notebooks := [], active_notebook_id := none, updated_at := none }

def w2rec : NbRecord :=
  { id := ['a'], url := some ['U'], name := ['A'], description := [], topics := []
    content_types := [], use_cases := [], tags := [], created_at := [], updated_at := []
    use_count := 0, last_used := none }

def w2lib : Library :=
  { notebooks := [(['a'], w2rec)], active_notebook_id := none, updated_at := none }

def w2nb : Notebook := { title := ['B'], url := some ['U'], sources := [], date := [] }

def w3rows : List RowData :=
  [⟨['r', '1'], [['r', '1'], ['s'], ['d']]⟩, ⟨['r', '2'], []⟩, ⟨['r', '3'], []⟩,
    ⟨['r', '4'], []⟩, ⟨['r', '5'], []⟩]

def w3resolve : Nat → ResolveOutcome :=
  fun i => if i = 2 then .threw else .success ['u']

def w6raw : Str := "• Machine Learning: covers neural nets".toList

def w6topic : Str := "machine-learning".toList

def w7rows : List RowData := [⟨['x'], []⟩]

def w8rec : NbRecord :=
  { id := ['a'], url := some ['u'], name := ['A'], description := [], topics := [['o', 'l', 'd']]
    content_types := [], use_cases := [], tags := [], created_at := [], updated_at := []
    use_count := 0, last_used := none }

def w8lib : Library :=
  { notebooks := [(['a'], w8rec)], active_notebook_id := none, updated_at := none }

def w8ask : Nat → AskOutcome := fun _ => .answered ['h', 'e', 'y']

def c8rec : NbRecord :=
  { id := ['a'], url := some ['u'], name := ['A'], description := [], topics := [['o', 'l', 'd']]
    content_types := [], use_cases := [], tags := [], created_at := [], updated_at := []
    use_count := 0, last_used := none }

def c8lib : Library :=
  { notebooks := [(['a'], c8rec)], active_notebook_id := none, updated_at := none }

def w10rec : NbRecord :=
  { id := ['b'], url := some ['v'], name := ['B'], description := [], topics := []
    content_types := [], use_cases := [], tags := [], created_at := [], updated_at := []
    use_count := 0, last_used := none }

def w10lib : Library :=
  { notebooks := [(['b'], w10rec)], active_notebook_id := none, updated_at := none }

def c9page : TitlePage := { pageTitle := "A - NotebookLM B".toList, fallbacks := [] }

/-! ## Theorems -/

/-- C5: in the cleaning step of the normalizer, bracketed citation markers
are removed before standalone 1-2 digit tokens, so the given input cleans to
exactly the expected text: the bracketed number is removed whole, the bare
digit is removed, and nothing is partially mangled. -/
theorem clean_response_citation_order :
    clean_response "See [12] and item 7 for details".toList =
      "See  and item  for details".toList := by decide

/-- Helper: the hydration poll returns zero when every attempt sees zero. -/
theorem awaitRows_all_zero (probe : Nat → Nat) (h : ∀ i < 4, probe i = 0) :
    awaitRows probe = 0 := by
  have h0 := h 0 (by omega)
  have h1 := h 1 (by omega)
  have h2 := h 2 (by omega)
  have h3 := h 3 (by omega)
  simp [awaitRows, show List.range 4 = [0, 1, 2, 3] from rfl, h0, h1, h2, h3]

/-- C7: if the hydration poller exhausts all of its 4 bounded attempts with a
row count of 0, discovery returns an empty sequence; this branch of the code
has no raise, which the model reflects by being a total function into lists. -/
theorem discover_zero_rows_returns_empty (probe : Nat → Nat) (rows : List RowData)
    (resolve : Nat → ResolveOutcome) (h : ∀ i < 4, probe i = 0) :
    discover_notebooks probe rows resolve = [] := by
  simp [discover_notebooks, awaitRows_all_zero probe h]

/-- Witness for C7 at a concrete probe that always reports zero rows. -/
theorem discover_zero_rows_returns_empty_witness :
    (∀ i < 4, (fun _ : Nat => 0) i = 0) ∧
      discover_notebooks (fun _ => 0) w7rows (fun _ => .notFound) = [] :=
  ⟨fun _ _ => rfl,
    discover_zero_rows_returns_empty (fun _ => 0) w7rows (fun _ => .notFound) (fun _ _ => rfl)⟩

/-- Helper: the resolution loop emits exactly one entry per row. -/
theorem resolveRowsGo_length (resolve : Nat → ResolveOutcome) :
    ∀ (i : Nat) (rows : List RowData), (resolveRowsGo resolve i rows).length = rows.length := by
  intro i rows
  induction rows generalizing i with
  | nil => rfl
  | cons rd rest ih => simp [resolveRowsGo, ih]

/-- Helper: the entry at each position comes from the row at that position
and the outcome of that iteration. -/
theorem resolveRowsGo_get (resolve : Nat → ResolveOutcome) :
    ∀ (rows : List RowData) (i j : Nat) (rd : RowData), rows.get? j = some rd →
      (resolveRowsGo resolve i rows).get? j = some (resolveRow rd (resolve (i + j))) := by
  intro rows
  induction rows with
  | nil => intro i j rd h; simp at h
  | cons r rest ih =>
    intro i j rd h
    cases j with
    | zero =>
      simp at h
      subst h
      simp [resolveRowsGo]
    | succ j =>
      simp only [List.get?_cons_succ] at h
      have h2 := ih (i + 1) j rd h
      have harith : i + 1 + j = i + (j + 1) := by omega
      rw [harith] at h2
      simpa [resolveRowsGo] using h2

/-- C3: once hydration has succeeded, the discovery orchestrator returns a
snapshot with exactly one entry per extracted row, in the original row
order; the entry for a row whose click-resolution threw or whose row could
not be re-located carries a null URL, and every other row is still resolved
to the URL captured by its own iteration, so the batch neither aborts nor
shrinks. -/
theorem discover_resolves_every_row (probe : Nat → Nat) (rows : List RowData)
    (resolve : Nat → ResolveOutcome) (hhyd : 0 < awaitRows probe) :
    (discover_notebooks probe rows resolve).length = rows.length ∧
      ∀ i rd, rows.get? i = some rd →
        ∃ e, (discover_notebooks probe rows resolve).get? i = some e ∧
          e.title = rd.title ∧ e.url = urlOfOutcome (resolve i) := by
  have hne : ¬ awaitRows probe = 0 := by omega
  unfold discover_notebooks
  rw [if_neg hne]
  refine ⟨resolveRowsGo_length resolve 0 rows, ?_⟩
  intro i rd h
  refine ⟨resolveRow rd (resolve i), ?_, rfl, rfl⟩
  have h2 := resolveRowsGo_get resolve rows 0 i rd h
  simpa using h2

/-- Witness for C3: a batch of 5 rows in which iteration 3 (index 2) throws
yields a 5-entry snapshot whose third entry has a null URL while its fourth
entry is resolved. -/
theorem discover_resolves_every_row_witness :
    0 < awaitRows (fun _ => 5) ∧
      (discover_notebooks (fun _ => 5) w3rows w3resolve).length = 5 ∧
      ((discover_notebooks (fun _ => 5) w3rows w3resolve).get? 2).map Notebook.url =
        some none ∧
      ((discover_notebooks (fun _ => 5) w3rows w3resolve).get? 3).map Notebook.url =
        some (some ['u']) := by
  have h := discover_resolves_every_row (fun _ => 5) w3rows w3resolve (by decide)
  exact ⟨by decide, h.1.trans (by decide), by decide, by decide⟩

/-- C4 counterexample: on a title containing an interior tab character the
code keeps the tab while the claimed derivation, which replaces every
whitespace character by a hyphen, would produce a hyphen there. -/
theorem slug_spec_counterexample :
    slugOfTitle ['a', '\t', 'b'] ≠ slugSpecClaim ['a', '\t', 'b'] := by decide

/-- C4 (amended): the slug assigned by reconciliation is derived by trimming
surrounding whitespace, lower-casing, replacing space characters (only the
ASCII space, not all whitespace) with hyphens, collapsing repeated hyphens
and trimming edge hyphens; being a pure function of the title, the same
title always yields the same slug. -/
theorem slug_matches_amended_spec (t : Str) : slugOfTitle t = slugSpecAmended t := rfl

/-- C9 counterexample: a tab title that contains the marker without ending
with it.  The code deletes the marker occurrence from the middle of the
title, while the claimed ends-with strategy would accept the raw title
unchanged. -/
theorem title_suffix_claim_refuted :
    get_notebook_title c9page ≠ check_title_claim c9page := by decide

/-- C9 (amended): title reconciliation deletes every occurrence of the
marker from a title containing it and trims the remainder, falling through
to the fallback probing when that remainder is empty; a title without the
marker is accepted trimmed when non-empty and distinct from the placeholder;
otherwise the ordered fallback candidates are probed for the first trimmed
value longer than 2 characters, and null is returned when nothing is found. -/
theorem get_title_amended_strategy (pg : TitlePage) :
    get_notebook_title pg = check_title_amended pg := rfl

/-- Helper: truthiness of the URL field is exactly being neither null nor
the empty string. -/
theorem urlTruthy_iff (u : Option Str) :
    urlTruthy u = true ↔ u ≠ none ∧ u ≠ some [] := by
  cases u with
  | none => simp [urlTruthy]
  | some v => cases v <;> simp [urlTruthy]

/-- Helper: membership in the new-notebook filter, unfolded to the three
conditions the code tests. -/
theorem mem_newNotebooks {lib : Library} {snapshot : List Notebook} {nb : Notebook}
    (h : nb ∈ snapshot) :
    nb ∈ newNotebooks lib snapshot ↔
      nb.url ≠ none ∧ nb.url ≠ some [] ∧ nb.url ∉ existingUrls lib.notebooks := by
  unfold newNotebooks
  rw [List.mem_filter]
  simp only [h, true_and, Bool.and_eq_true, Bool.not_eq_true', decide_eq_false_iff_not,
    urlTruthy_iff]
  tauto

/-- Helper: inserting a record whose URL differs from u never increases the
number of records carrying u (a slug collision may even replace one). -/
theorem countUrl_insert_le (u : Str) (v : NbRecord) (h : v.url ≠ some u) :
    ∀ (nbs : List (Str × NbRecord)) (k : Str),
      countUrl (insertRecord nbs k v) u ≤ countUrl nbs u := by
  intro nbs
  induction nbs with
  | nil => intro k; simp [insertRecord, countUrl, h]
  | cons p rest ih =>
    intro k
    obtain ⟨k1, v1⟩ := p
    by_cases hk : k1 = k
    · simp only [insertRecord, if_pos hk, countUrl, if_neg h]
      omega
    · simp only [insertRecord, if_neg hk, countUrl]
      have := ih k
      omega

/-- Helper: the reconciliation fold only inserts records whose URLs come
from the new entries, so it cannot increase the count of a URL that no new
entry carries. -/
theorem countUrl_fold_le (u : Str) (now : Str) :
    ∀ (l : List Notebook) (acc : List (Str × NbRecord) × List Str),
      (∀ nb ∈ l, nb.url ≠ some u) →
      countUrl (l.foldl (reconcileStep now) acc).1 u ≤ countUrl acc.1 u := by
  intro l
  induction l with
  | nil => intro acc _; exact le_refl _
  | cons nb rest ih =>
    intro acc h
    have h1 : nb.url ≠ some u := h nb (List.mem_cons_self nb rest)
    have step := countUrl_insert_le u (mkRecord (slugOfTitle nb.title) nb now) h1
      acc.1 (slugOfTitle nb.title)
    calc countUrl ((nb :: rest).foldl (reconcileStep now) acc).1 u
        = countUrl (rest.foldl (reconcileStep now) (reconcileStep now acc nb)).1 u := by
          rw [List.foldl_cons]
      _ ≤ countUrl (reconcileStep now acc nb).1 u :=
          ih _ (fun x hx => h x (List.mem_cons_of_mem _ hx))
      _ ≤ countUrl acc.1 u := step

/-- Helper: the record mapping produced by reconciliation, by cases on
whether any entry was new. -/
theorem reconcile_notebooks_def (lib : Library) (snapshot : List Notebook) (now : Str) :
    (reconcile lib snapshot now).1.notebooks =
      if (newNotebooks lib snapshot).isEmpty then lib.notebooks
      else ((newNotebooks lib snapshot).foldl (reconcileStep now) (lib.notebooks, [])).1 := by
  unfold reconcile
  by_cases he : (newNotebooks lib snapshot).isEmpty <;> simp [he]

/-- C2 counterexample: a snapshot entry whose URL is the empty string is
non-null and not among the (empty) existing URL values, yet the code filters
it out and creates no record, because the truthiness test on the URL rejects
empty strings as well as null. -/
theorem new_notebook_filter_rejects_empty_url :
    c2nb.url ≠ none ∧ c2nb.url ∉ existingUrls c2lib.notebooks ∧
      c2nb ∉ newNotebooks c2lib [c2nb] := by decide

/-- C2 (amended): a snapshot entry creates a new record iff its URL is
non-null, non-empty, and not among the URL values of existing records; in
particular an entry whose URL equals an existing record URL is not new, and
reconciliation never increases the number of records carrying an existing
URL, whatever the titles of the snapshot entries are. -/
theorem reconcile_dedup_by_url (lib : Library) (snapshot : List Notebook) (now : Str) :
    (∀ nb ∈ snapshot,
      (nb ∈ newNotebooks lib snapshot ↔
        nb.url ≠ none ∧ nb.url ≠ some [] ∧ nb.url ∉ existingUrls lib.notebooks)) ∧
    (∀ u : Str, some u ∈ existingUrls lib.notebooks →
      countUrl (reconcile lib snapshot now).1.notebooks u ≤ countUrl lib.notebooks u) := by
  constructor
  · intro nb h
    exact mem_newNotebooks h
  · intro u hu
    rw [reconcile_notebooks_def]
    by_cases he : (newNotebooks lib snapshot).isEmpty
    · rw [if_pos he]
    · rw [if_neg he]
      apply countUrl_fold_le
      intro nb hnb
      have hp : nb ∈ snapshot ∧ urlTruthy nb.url = true ∧ nb.url ∉ existingUrls lib.notebooks := by
        simpa [newNotebooks] using hnb
      intro heq
      exact hp.2.2 (heq ▸ hu)

/-- Witness for C2 at a concrete library holding one record and a snapshot
reusing its URL under a different title. -/
theorem reconcile_dedup_by_url_witness :
    (w2nb ∈ newNotebooks w2lib [w2nb] ↔
      w2nb.url ≠ none ∧ w2nb.url ≠ some [] ∧ w2nb.url ∉ existingUrls w2lib.notebooks) ∧
      countUrl (reconcile w2lib [w2nb] ['T']).1.notebooks ['U'] ≤
        countUrl w2lib.notebooks ['U'] :=
  ⟨(reconcile_dedup_by_url w2lib [w2nb] ['T']).1 w2nb (by decide),
    (reconcile_dedup_by_url w2lib [w2nb] ['T']).2 ['U'] (by decide)⟩

/-- Helper: an index returned by the last-occurrence search is inside the
string. -/
theorem rfindP_lt {ch : Char} :
    ∀ {s : Str} {i : Nat}, rfindP ch s = some i → i < s.length := by
  intro s
  induction s with
  | nil => intro i h; simp [rfindP] at h
  | cons c rest ih =>
    intro i h
    unfold rfindP at h
    cases hr : rfindP ch rest with
    | some j =>
      rw [hr] at h
      cases h
      have := ih hr
      simp only [List.length_cons]
      omega
    | none =>
      rw [hr] at h
      by_cases hc : c == ch
      · simp only [hc, if_pos] at h
        cases h
        simp
      · simp [hc] at h

/-- C1 (amended): the description produced by the normalizer has length at
most 503.  It has length at most 500 except on the branch that appends the
three-character ellipsis marker to the 500-character truncation, which is
what makes the bound 503 rather than the 500 the claim stated. -/
theorem extract_description_length_le (raw : Str) :
    (extract_description raw).length ≤ 503 := by
  simp only [extract_description]
  by_cases h : 500 < (pyStripWs (firstPara (clean_response raw))).length
  · rw [if_pos h]
    split
    · next i hi =>
      split
      · have hlt := rfindP_lt hi
        simp only [List.length_take] at hlt ⊢
        omega
      · simp only [List.length_append, List.length_take]
        simp only [List.length_cons, List.length_nil]
        omega
    · next hn =>
      simp only [List.length_append, List.length_take]
      simp only [List.length_cons, List.length_nil]
      omega
  · rw [if_neg h]
    omega

/-- Helper: dropping a leading run is the identity when no character
satisfies the predicate. -/
theorem dropWhile_all_false (p : Char → Bool) :
    ∀ s : Str, (∀ c ∈ s, p c = false) → s.dropWhile p = s := by
  intro s h
  cases s with
  | nil => rfl
  | cons c rest => simp [List.dropWhile_cons, h c (List.mem_cons_self c rest)]

/-- Helper: dropping a trailing run is the identity when no character
satisfies the predicate. -/
theorem dropTrailP_all_false (p : Char → Bool) :
    ∀ s : Str, (∀ c ∈ s, p c = false) → dropTrailP p s = s := by
  intro s
  induction s with
  | nil => intro _; rfl
  | cons c rest ih =>
    intro h
    have hr := ih (fun x hx => h x (List.mem_cons_of_mem _ hx))
    simp [dropTrailP, hr, h c (List.mem_cons_self c rest)]

/-- Helper: stripping is the identity on whitespace-free strings. -/
theorem pyStripWs_id (s : Str) (h : ∀ c ∈ s, isPyWs c = false) : pyStripWs s = s := by
  unfold pyStripWs
  rw [dropWhile_all_false _ s h, dropTrailP_all_false _ s h]

/-- Helper: the digits-then-dots pattern cannot match at a non-digit. -/
theorem matchNumEllipsis_nodigit {c : Char} {rest : Str} (h : c.isDigit = false) :
    matchNumEllipsis (c :: rest) = none := by
  unfold matchNumEllipsis
  simp [List.takeWhile_cons, h]

/-- Helper: the digits-then-dots deletion is the identity on digit-free
strings. -/
theorem stripNumEllipsisGo_id :
    ∀ (fuel : Nat) (s : Str), (∀ c ∈ s, c.isDigit = false) → stripNumEllipsisGo fuel s = s := by
  intro fuel
  induction fuel with
  | zero => intro s _; rfl
  | succ f ih =>
    intro s h
    cases s with
    | nil => rfl
    | cons c rest =>
      simp only [stripNumEllipsisGo, matchNumEllipsis_nodigit (h c (List.mem_cons_self c rest))]
      rw [ih rest (fun x hx => h x (List.mem_cons_of_mem _ hx))]

/-- Helper: the citation pattern cannot match away from an opening bracket. -/
theorem matchBracketCite_nobracket {c : Char} {rest : Str} (h : ¬ c = '[') :
    matchBracketCite (c :: rest) = none := by
  simp [matchBracketCite, h]

/-- Helper: the citation deletion is the identity on bracket-free strings. -/
theorem stripBracketCitesGo_id :
    ∀ (fuel : Nat) (s : Str), (∀ c ∈ s, ¬ c = '[') → stripBracketCitesGo fuel s = s := by
  intro fuel
  induction fuel with
  | zero => intro s _; rfl
  | succ f ih =>
    intro s h
    cases s with
    | nil => rfl
    | cons c rest =>
      simp only [stripBracketCitesGo, matchBracketCite_nobracket (h c (List.mem_cons_self c rest))]
      rw [ih rest (fun x hx => h x (List.mem_cons_of_mem _ hx))]

/-- Helper: the bare-digit deletion is the identity on digit-free strings. -/
theorem stripBareDigitsGo_id :
    ∀ (fuel : Nat) (s : Str), (∀ c ∈ s, c.isDigit = false) → stripBareDigitsGo fuel s = s := by
  intro fuel
  induction fuel with
  | zero => intro s _; rfl
  | succ f ih =>
    intro s h
    cases s with
    | nil => rfl
    | cons c rest =>
      simp only [stripBareDigitsGo, h c (List.mem_cons_self c rest)]
      simp only [Bool.false_eq_true, if_false]
      rw [ih rest (fun x hx => h x (List.mem_cons_of_mem _ hx))]

/-- Helper: the reminder truncation is the identity when the string never
contains the first character of the sentinel. -/
theorem truncAtMarker_id (s : Str) (h : ∀ c ∈ s, ¬ c = 'E') : truncAtMarker s = s := by
  induction s with
  | nil => rfl
  | cons c rest ih =>
    have hc := h c (List.mem_cons_self c rest)
    have hp : reminderMarker.isPrefixOf (c :: rest) = false := by
      rw [show reminderMarker = 'E' :: "XTREMELY IMPORTANT:".toList from rfl]
      by_cases hEq : ('E' : Char) == c
      · exact absurd (beq_iff_eq.mp hEq).symm hc
      · simp only [List.isPrefixOf, Bool.and_eq_false_iff]
        left
        simpa using hEq
    simp [truncAtMarker, hp, ih (fun x hx => h x (List.mem_cons_of_mem _ hx))]

/-- Helper: identity of the whole cleaning pass on strings free of digits,
brackets, the sentinel head and whitespace. -/
theorem clean_response_benign (s : Str)
    (h : ∀ c ∈ s, c.isDigit = false ∧ ¬ c = '[' ∧ ¬ c = 'E' ∧ isPyWs c = false) :
    clean_response s = s := by
  unfold clean_response stripNumEllipsis stripBracketCites stripBareDigits
  rw [stripNumEllipsisGo_id _ s (fun c hc => (h c hc).1)]
  rw [stripBracketCitesGo_id _ s (fun c hc => (h c hc).2.1)]
  rw [stripBareDigitsGo_id _ s (fun c hc => (h c hc).1)]
  rw [truncAtMarker_id s (fun c hc => (h c hc).2.2.1)]
  rw [pyStripWs_id s (fun c hc => (h c hc).2.2.2)]

/-- Helper: the first-paragraph cut is the identity on newline-free strings. -/
theorem firstPara_id (s : Str) (h : ∀ c ∈ s, ¬ c = '\n') : firstPara s = s := by
  induction s with
  | nil => rfl
  | cons c rest ih =>
    have hc := h c (List.mem_cons_self c rest)
    simp [firstPara, hc, ih (fun x hx => h x (List.mem_cons_of_mem _ hx))]

/-- Helper: the last-occurrence search fails on strings free of the sought
character. -/
theorem rfindP_none (ch : Char) :
    ∀ s : Str, (∀ c ∈ s, ¬ c = ch) → rfindP ch s = none := by
  intro s
  induction s with
  | nil => intro _; rfl
  | cons c rest ih =>
    intro h
    have hc : (c == ch) = false := by
      simpa using h c (List.mem_cons_self c rest)
    simp [rfindP, ih (fun x hx => h x (List.mem_cons_of_mem _ hx)), hc]

/-- C1 counterexample: on a 501-character period-free paragraph the
truncation branch appends the three-character ellipsis to the 500-character
cut, so the resulting description has 503 characters and the claimed bound
of 500 fails. -/
theorem extract_description_can_exceed_500 :
    ¬ ((extract_description (List.replicate 501 'a')).length ≤ 500) := by
  have hclean : clean_response (List.replicate 501 'a') = List.replicate 501 'a' :=
    clean_response_benign _ (fun c hc => by
      have he : c = 'a' := List.eq_of_mem_replicate hc
      subst he
      exact ⟨by decide, by decide, by decide, by decide⟩)
  have hfp : firstPara (List.replicate 501 'a') = List.replicate 501 'a' :=
    firstPara_id _ (fun c hc => by
      have he : c = 'a' := List.eq_of_mem_replicate hc
      subst he; decide)
  have hws : pyStripWs (List.replicate 501 'a') = List.replicate 501 'a' :=
    pyStripWs_id _ (fun c hc => by
      have he : c = 'a' := List.eq_of_mem_replicate hc
      subst he; decide)
  have hrf : rfindP '.' ((List.replicate 501 'a').take 500) = none := by
    apply rfindP_none
    intro c hc
    have hc2 : c ∈ List.replicate 501 'a' := (List.take_sublist _ _).subset hc
    have he : c = 'a' := List.eq_of_mem_replicate hc2
    subst he; decide
  have key : ∀ s : Str, clean_response s = s → firstPara s = s → pyStripWs s = s →
      s.length = 501 → rfindP '.' (s.take 500) = none →
      (extract_description s).length = 503 := by
    intro s h1 h2 h3 h4 h5
    simp only [extract_description, h1, h2, h3]
    rw [if_pos (by omega)]
    rw [h5]
    simp only [List.length_append, List.length_take, List.length_cons, List.length_nil]
    omega
  have hfin := key (List.replicate 501 'a') hclean hfp hws (by simp) hrf
  omega

/-- Helper: looking up the key just inserted returns the inserted record. -/
theorem lookup_insert_self :
    ∀ (nbs : List (Str × NbRecord)) (k : Str) (v : NbRecord),
      lookupRecord (insertRecord nbs k v) k = some v := by
  intro nbs
  induction nbs with
  | nil => intro k v; simp [insertRecord, lookupRecord]
  | cons p rest ih =>
    intro k v
    obtain ⟨k1, v1⟩ := p
    by_cases hk : k1 = k
    · simp [insertRecord, hk, lookupRecord]
    · simp [insertRecord, hk, lookupRecord, ih]

/-- Helper: insertion does not disturb the other keys. -/
theorem lookup_insert_ne :
    ∀ (nbs : List (Str × NbRecord)) (k : Str) (v : NbRecord) (k2 : Str), k2 ≠ k →
      lookupRecord (insertRecord nbs k v) k2 = lookupRecord nbs k2 := by
  intro nbs
  induction nbs with
  | nil =>
    intro k v k2 h
    simp only [insertRecord, lookupRecord]
    rw [if_neg (fun hh => h hh.symm)]
  | cons p rest ih =>
    intro k v k2 h
    obtain ⟨k1, v1⟩ := p
    by_cases hk : k1 = k
    · subst hk
      simp only [insertRecord, if_pos rfl, lookupRecord]
      rw [if_neg (fun hh => h hh.symm), if_neg (fun hh => h hh.symm)]
    · simp only [insertRecord, if_neg hk, lookupRecord]
      by_cases h2 : k1 = k2
      · rw [if_pos h2, if_pos h2]
      · rw [if_neg h2, if_neg h2]
        exact ih k v k2 h

/-- Helper: the enrichment loop reaches the end, and so the save, whenever
every target slug is present in the mapping; insertions preserve presence. -/
theorem enrichGo_isSome (ask : Nat → AskOutcome) (recNow : Nat → Str) :
    ∀ (slugs : List Str) (i : Nat) (nbs : List (Str × NbRecord)) (count : Nat),
      (∀ s ∈ slugs, (lookupRecord nbs s).isSome = true) →
      (enrichGo ask recNow slugs i nbs count).isSome = true := by
  intro slugs
  induction slugs with
  | nil => intro i nbs count _; rfl
  | cons slug rest ih =>
    intro i nbs count h
    have h1 := h slug (List.mem_cons_self slug rest)
    cases hl : lookupRecord nbs slug with
    | none => rw [hl] at h1; simp at h1
    | some nb =>
      cases hai : ask i with
      | threw =>
        simp only [enrichGo, hl, hai]
        exact ih (i + 1) nbs count (fun s hs => h s (List.mem_cons_of_mem _ hs))
      | answered raw =>
        by_cases hr : raw.isEmpty
        · simp only [enrichGo, hl, hai, hr, if_true]
          exact ih (i + 1) nbs count (fun s hs => h s (List.mem_cons_of_mem _ hs))
        · simp only [enrichGo, hl, hai, hr, Bool.false_eq_true, if_false]
          apply ih
          intro s hs
          by_cases hs2 : s = slug
          · subst hs2
            rw [lookup_insert_self]
            rfl
          · rw [lookup_insert_ne _ _ _ _ hs2]
            exact h s (List.mem_cons_of_mem _ hs)

/-- Helper: full characterization of the enrichment loop on duplicate-free
slug lists: it succeeds, counts exactly the iterations with truthy answers,
applies the per-record effect of the own iteration of each slug, and leaves
every other key untouched. -/
theorem enrichGo_spec (ask : Nat → AskOutcome) (recNow : Nat → Str) :
    ∀ (slugs : List Str) (i : Nat) (nbs : List (Str × NbRecord)) (count : Nat),
      (∀ s ∈ slugs, (lookupRecord nbs s).isSome = true) →
      slugs.Nodup →
      ∃ nbs1,
        enrichGo ask recNow slugs i nbs count =
          some (nbs1, count + countAnswered ask i slugs.length) ∧
        (∀ j s nb, slugs.get? j = some s → lookupRecord nbs s = some nb →
          lookupRecord nbs1 s = some (applyAsk nb (ask (i + j)) (recNow (i + j)))) ∧
        (∀ k, k ∉ slugs → lookupRecord nbs1 k = lookupRecord nbs k) := by
  intro slugs
  induction slugs with
  | nil =>
    intro i nbs count _ _
    refine ⟨nbs, by simp [enrichGo, countAnswered], ?_, fun k _ => rfl⟩
    intro j s nb hj
    simp at hj
  | cons slug rest ih =>
    intro i nbs count hpres hnd
    have hslug := hpres slug (List.mem_cons_self slug rest)
    have hnotin : slug ∉ rest := (List.nodup_cons.1 hnd).1
    have hndrest : rest.Nodup := (List.nodup_cons.1 hnd).2
    cases hl : lookupRecord nbs slug with
    | none => rw [hl] at hslug; simp at hslug
    | some nb =>
      cases hai : ask i with
      | threw =>
        obtain ⟨nbs1, heq, hrec, hframe⟩ :=
          ih (i + 1) nbs count (fun s hs => hpres s (List.mem_cons_of_mem _ hs)) hndrest
        have hcount : countAnswered ask i (rest.length + 1) =
            countAnswered ask (i + 1) rest.length := by
          simp [countAnswered, hai, answeredNonEmpty]
        refine ⟨nbs1, ?_, ?_, ?_⟩
        · simp only [enrichGo, hl, hai, List.length_cons, hcount, heq]
        · intro j s nb2 hj hlk
          cases j with
          | zero =>
            simp only [List.get?_cons_zero, Option.some_inj] at hj
            subst hj
            rw [hlk] at hl
            cases hl
            rw [hframe slug hnotin, hlk]
            simp [applyAsk, hai]
          | succ j =>
            simp only [List.get?_cons_succ] at hj
            have h2 := hrec j s nb2 hj hlk
            have harith : i + 1 + j = i + (j + 1) := by omega
            rw [harith] at h2
            exact h2
        · intro k hk
          exact hframe k (fun hh => hk (List.mem_cons_of_mem _ hh))
      | answered raw =>
        by_cases hr : raw.isEmpty
        · obtain ⟨nbs1, heq, hrec, hframe⟩ :=
            ih (i + 1) nbs count (fun s hs => hpres s (List.mem_cons_of_mem _ hs)) hndrest
          have hcount : countAnswered ask i (rest.length + 1) =
              countAnswered ask (i + 1) rest.length := by
            simp [countAnswered, hai, answeredNonEmpty, hr]
          refine ⟨nbs1, ?_, ?_, ?_⟩
          · simp only [enrichGo, hl, hai, hr, if_true, List.length_cons, hcount, heq]
          · intro j s nb2 hj hlk
            cases j with
            | zero =>
              simp only [List.get?_cons_zero, Option.some_inj] at hj
              subst hj
              rw [hlk] at hl
              cases hl
              rw [hframe slug hnotin, hlk]
              simp [applyAsk, hai, hr]
            | succ j =>
              simp only [List.get?_cons_succ] at hj
              have h2 := hrec j s nb2 hj hlk
              have harith : i + 1 + j = i + (j + 1) := by omega
              rw [harith] at h2
              exact h2
          · intro k hk
            exact hframe k (fun hh => hk (List.mem_cons_of_mem _ hh))
        · set nb1 : NbRecord := { nb with
            description := extract_description raw
            topics := if (extract_topics raw).isEmpty then nb.topics else extract_topics raw
            updated_at := recNow i } with hnb1
          have hpres2 : ∀ s ∈ rest, (lookupRecord (insertRecord nbs slug nb1) s).isSome = true := by
            intro s hs
            by_cases hs2 : s = slug
            · subst hs2; rw [lookup_insert_self]; rfl
            · rw [lookup_insert_ne _ _ _ _ hs2]
              exact hpres s (List.mem_cons_of_mem _ hs)
          obtain ⟨nbs1, heq, hrec, hframe⟩ :=
            ih (i + 1) (insertRecord nbs slug nb1) (count + 1) hpres2 hndrest
          have hcount : count + countAnswered ask i (rest.length + 1) =
              count + 1 + countAnswered ask (i + 1) rest.length := by
            simp [countAnswered, hai, answeredNonEmpty, hr]
            omega
          refine ⟨nbs1, ?_, ?_, ?_⟩
          · simp only [enrichGo, hl, hai, hr, Bool.false_eq_true, if_false, List.length_cons]
            rw [heq, hcount]
          · intro j s nb2 hj hlk
            cases j with
            | zero =>
              simp only [List.get?_cons_zero, Option.some_inj] at hj
              subst hj
              rw [hlk] at hl
              cases hl
              have hstep : lookupRecord (insertRecord nbs slug nb1) slug = some nb1 :=
                lookup_insert_self nbs slug nb1
              rw [hframe slug hnotin, hstep]
              simp only [Nat.add_zero, applyAsk, hai, hr, Bool.false_eq_true, if_false, hnb1]
            | succ j =>
              simp only [List.get?_cons_succ] at hj
              have hs : s ∈ rest := List.get?_mem hj
              have hs2 : s ≠ slug := fun hh => hnotin (hh ▸ hs)
              have hlk2 : lookupRecord (insertRecord nbs slug nb1) s = some nb2 := by
                rw [lookup_insert_ne _ _ _ _ hs2]; exact hlk
              have h2 := hrec j s nb2 hj hlk2
              have harith : i + 1 + j = i + (j + 1) := by omega
              rw [harith] at h2
              exact h2
          · intro k hk
            have hk1 : k ≠ slug := fun hh => hk (hh ▸ List.mem_cons_self slug rest)
            have hk2 : k ∉ rest := fun hh => hk (List.mem_cons_of_mem _ hh)
            rw [hframe k hk2, lookup_insert_ne _ _ _ _ hk1]

/-- C8 counterexample: on a non-empty answer from which the normalizer
extracts no topics, the code leaves the previously stored topics in place
instead of writing the (empty) extracted topic list, so the claim that a
non-empty answer writes description, topics and timestamp fails for the
topics field. -/
theorem enrich_topics_write_refuted :
    (enrich_notebooks c8lib [['a']] (fun _ => .answered ['h', 'i']) (fun _ => ['T']) ['T']).map
        (fun o => (lookupRecord o.notebooks ['a']).map NbRecord.topics) ≠
      some (some (extract_topics ['h', 'i'])) := by decide

/-- C8 (amended): given that every target slug is present and the slug list
is duplicate-free, the enrichment driver processes each slug in order and
returns normally: the count of records updated is exactly the number of
iterations with a non-empty answer; a slug whose iteration received a
non-empty answer has its description and per-record timestamp written, and
its topics replaced only when the extracted topic list is non-empty; a slug
whose iteration received an empty answer or an exception keeps its record
unchanged; records outside the slug list are untouched. -/
theorem enrich_updates_and_counts (lib : Library) (slugs : List Str)
    (ask : Nat → AskOutcome) (recNow : Nat → Str) (libNow : Str)
    (hpres : ∀ s ∈ slugs, (lookupRecord lib.notebooks s).isSome = true)
    (hnd : slugs.Nodup) :
    ((enrich_notebooks lib slugs ask recNow libNow).map EnrichOutcome.enriched =
        some (countAnswered ask 0 slugs.length)) ∧
    (∀ j s nb, slugs.get? j = some s → lookupRecord lib.notebooks s = some nb →
      (enrich_notebooks lib slugs ask recNow libNow).map
          (fun o => lookupRecord o.notebooks s) =
        some (some (applyAsk nb (ask j) (recNow j)))) ∧
    (∀ k, k ∉ slugs →
      (enrich_notebooks lib slugs ask recNow libNow).map
          (fun o => lookupRecord o.notebooks k) =
        some (lookupRecord lib.notebooks k)) := by
  obtain ⟨nbs1, heq, hrec, hframe⟩ := enrichGo_spec ask recNow slugs 0 lib.notebooks 0 hpres hnd
  rw [Nat.zero_add] at heq
  refine ⟨?_, ?_, ?_⟩
  · simp [enrich_notebooks, heq]
  · intro j s nb hj hlk
    have h2 := hrec j s nb hj hlk
    rw [Nat.zero_add] at h2
    simp [enrich_notebooks, heq, h2]
  · intro k hk
    simp [enrich_notebooks, heq, hframe k hk]

/-- Witness for C8 at a one-record library whose single enrichment iteration
receives a non-empty answer. -/
theorem enrich_updates_and_counts_witness :
    (∀ s ∈ [['a']], (lookupRecord w8lib.notebooks s).isSome = true) ∧
      ([['a']] : List Str).Nodup ∧
      (enrich_notebooks w8lib [['a']] w8ask (fun _ => ['T']) ['L']).map
          EnrichOutcome.enriched = some (countAnswered w8ask 0 1) ∧
      (enrich_notebooks w8lib [['a']] w8ask (fun _ => ['T']) ['L']).map
          (fun o => lookupRecord o.notebooks ['a']) =
        some (some (applyAsk w8rec (w8ask 0) ['T'])) := by
  have h := enrich_updates_and_counts w8lib [['a']] w8ask (fun _ => ['T']) ['L']
    (by decide) (by decide)
  exact ⟨by decide, by decide, h.1, h.2.1 0 ['a'] w8rec (by decide) (by decide)⟩

/-- C10: the enrichment driver always refreshes the library-level timestamp
and performs the whole-library file write at the end of a batch, whatever
the per-record outcomes were, provided the batch runs to its end (every
target slug present). -/
theorem enrich_always_saves (lib : Library) (slugs : List Str) (ask : Nat → AskOutcome)
    (recNow : Nat → Str) (libNow : Str)
    (hpres : ∀ s ∈ slugs, (lookupRecord lib.notebooks s).isSome = true) :
    (enrich_notebooks lib slugs ask recNow libNow).map
        (fun o => (o.libUpdatedAt, o.savedToFile)) = some (libNow, true) := by
  have h := enrichGo_isSome ask recNow slugs 0 lib.notebooks 0 hpres
  unfold enrich_notebooks
  cases heq : enrichGo ask recNow slugs 0 lib.notebooks 0 with
  | none => rw [heq] at h; simp at h
  | some p => simp

/-- Witness for C10 with an ask collaborator that always throws, so that
zero records are enriched and the library is still stamped and saved. -/
theorem enrich_always_saves_witness :
    (∀ s ∈ [['b']], (lookupRecord w10lib.notebooks s).isSome = true) ∧
      (enrich_notebooks w10lib [['b']] (fun _ => .threw) (fun _ => ['T']) ['N', 'W']).map
          (fun o => (o.libUpdatedAt, o.savedToFile)) = some (['N', 'W'], true) ∧
      (enrich_notebooks w10lib [['b']] (fun _ => .threw) (fun _ => ['T']) ['N', 'W']).map
          EnrichOutcome.enriched = some 0 :=
  ⟨by decide,
    enrich_always_saves w10lib [['b']] (fun _ => .threw) (fun _ => ['T']) ['N', 'W'] (by decide),
    by decide⟩

/-- Helper: after a hyphen has just been emitted, the collapse scan never
emits another hyphen first. -/
theorem collapseGo_true_head : ∀ s : Str, (collapseGo true s).head? ≠ some '-' := by
  intro s
  induction s with
  | nil => simp [collapseGo]
  | cons c rest ih =>
    by_cases hc : (c == '-') = true
    · simpa [collapseGo, hc] using ih
    · simp only [collapseGo, hc, Bool.false_eq_true, if_false, List.head?_cons]
      intro hcontra
      rw [Option.some_inj] at hcontra
      subst hcontra
      simp at hc

/-- Helper: the collapse scan never emits two adjacent hyphens. -/
theorem noDH_collapseGo : ∀ (s : Str) (b : Bool), noDoubleHyphen (collapseGo b s) = true := by
  intro s
  induction s with
  | nil => intro b; rfl
  | cons c rest ih =>
    intro b
    by_cases hc : (c == '-') = true
    · cases b with
      | true => simpa [collapseGo, hc] using ih true
      | false =>
        simp only [collapseGo, hc, if_true]
        cases hcg : collapseGo true rest with
        | nil => rfl
        | cons x r1 =>
          have hx : ¬ x = '-' := by
            have h2 := collapseGo_true_head rest
            rw [hcg] at h2
            simpa using h2
          simp only [noDoubleHyphen, Bool.and_eq_true]
          constructor
          · simp [hx]
          · have h3 := ih true
            rw [hcg] at h3
            exact h3
    · simp only [collapseGo, hc, Bool.false_eq_true, if_false]
      cases hcg : collapseGo false rest with
      | nil => rfl
      | cons x r1 =>
        simp only [noDoubleHyphen, Bool.and_eq_true]
        constructor
        · simp at hc
          simp [hc]
        · have h3 := ih false
          rw [hcg] at h3
          exact h3

/-- Helper: the collapse scan only emits characters of its input. -/
theorem mem_collapseGo : ∀ (s : Str) (b : Bool) (c : Char), c ∈ collapseGo b s → c ∈ s := by
  intro s
  induction s with
  | nil => intro b c h; simpa [collapseGo] using h
  | cons a rest ih =>
    intro b c h
    by_cases ha : (a == '-') = true
    · have ha2 : a = '-' := by simpa using ha
      cases b with
      | true =>
        simp only [collapseGo, ha, if_true] at h
        exact List.mem_cons_of_mem _ (ih true c h)
      | false =>
        simp only [collapseGo, ha, if_true] at h
        rcases List.mem_cons.1 h with h1 | h2
        · subst h1
          rw [ha2]
          exact List.mem_cons_self _ _
        · exact List.mem_cons_of_mem _ (ih true c h2)
    · simp only [collapseGo, ha, Bool.false_eq_true, if_false] at h
      rcases List.mem_cons.1 h with h1 | h2
      · subst h1; exact List.mem_cons_self _ _
      · exact List.mem_cons_of_mem _ (ih false c h2)

/-- Helper: the tail of a hyphen-separated string stays hyphen-separated. -/
theorem noDH_tail {a : Char} {l : Str} (h : noDoubleHyphen (a :: l) = true) :
    noDoubleHyphen l = true := by
  cases l with
  | nil => rfl
  | cons b r =>
    simp only [noDoubleHyphen, Bool.and_eq_true] at h
    exact h.2

/-- Helper: a leading drop preserves membership. -/
theorem mem_dropWhile (p : Char → Bool) : ∀ s : Str, ∀ c ∈ s.dropWhile p, c ∈ s := by
  intro s
  induction s with
  | nil => intro c h; simpa using h
  | cons a rest ih =>
    intro c h
    by_cases ha : p a = true
    · rw [List.dropWhile_cons, if_pos ha] at h
      exact List.mem_cons_of_mem _ (ih c h)
    · rw [List.dropWhile_cons, if_neg ha] at h
      exact h

/-- Helper: the head surviving a leading drop fails the predicate. -/
theorem dropWhile_head_not (p : Char → Bool) :
    ∀ (s : Str) (c : Char), (s.dropWhile p).head? = some c → p c = false := by
  intro s
  induction s with
  | nil => intro c h; simp at h
  | cons a rest ih =>
    intro c h
    by_cases ha : p a = true
    · rw [List.dropWhile_cons, if_pos ha] at h
      exact ih c h
    · rw [List.dropWhile_cons, if_neg ha] at h
      simp only [List.head?_cons, Option.some_inj] at h
      subst h
      simpa using ha

/-- Helper: a leading drop preserves hyphen separation. -/
theorem noDH_dropWhile (p : Char → Bool) :
    ∀ s : Str, noDoubleHyphen s = true → noDoubleHyphen (s.dropWhile p) = true := by
  intro s
  induction s with
  | nil => intro h; exact h
  | cons a rest ih =>
    intro h
    by_cases ha : p a = true
    · rw [List.dropWhile_cons, if_pos ha]
      exact ih (noDH_tail h)
    · rw [List.dropWhile_cons, if_neg ha]
      exact h

/-- Helper: a trailing drop preserves membership. -/
theorem mem_dropTrailP (p : Char → Bool) : ∀ s : Str, ∀ c ∈ dropTrailP p s, c ∈ s := by
  intro s
  induction s with
  | nil => intro c h; simpa [dropTrailP] using h
  | cons a rest ih =>
    intro c h
    simp only [dropTrailP] at h
    by_cases hcond : ((dropTrailP p rest).isEmpty && p a) = true
    · rw [if_pos hcond] at h; simp at h
    · rw [if_neg hcond] at h
      rcases List.mem_cons.1 h with h1 | h2
      · subst h1; exact List.mem_cons_self _ _
      · exact List.mem_cons_of_mem _ (ih c h2)

/-- Helper: a trailing drop preserves the head. -/
theorem dropTrailP_head (p : Char → Bool) :
    ∀ (s : Str) (c : Char), (dropTrailP p s).head? = some c → s.head? = some c := by
  intro s c h
  cases s with
  | nil => simpa [dropTrailP] using h
  | cons a rest =>
    simp only [dropTrailP] at h
    by_cases hcond : ((dropTrailP p rest).isEmpty && p a) = true
    · rw [if_pos hcond] at h; simp at h
    · rw [if_neg hcond] at h
      simp only [List.head?_cons] at h ⊢
      exact h

/-- Helper: the last character surviving a trailing drop fails the
predicate. -/
theorem dropTrailP_getLast_not (p : Char → Bool) :
    ∀ (s : Str) (c : Char), (dropTrailP p s).getLast? = some c → p c = false := by
  intro s
  induction s with
  | nil => intro c h; simp [dropTrailP] at h
  | cons a rest ih =>
    intro c h
    simp only [dropTrailP] at h
    by_cases hcond : ((dropTrailP p rest).isEmpty && p a) = true
    · rw [if_pos hcond] at h; simp at h
    · rw [if_neg hcond] at h
      cases hr : dropTrailP p rest with
      | nil =>
        rw [hr] at h
        simp only [List.getLast?_singleton, Option.some_inj] at h
        subst h
        rw [hr] at hcond
        simpa using hcond
      | cons x r1 =>
        rw [hr] at h
        rw [List.getLast?_cons_cons] at h
        rw [← hr] at h
        exact ih c h

/-- Helper: a trailing drop preserves hyphen separation. -/
theorem noDH_dropTrailP (p : Char → Bool) :
    ∀ s : Str, noDoubleHyphen s = true → noDoubleHyphen (dropTrailP p s) = true := by
  intro s
  induction s with
  | nil => intro h; exact h
  | cons a rest ih =>
    intro h
    simp only [dropTrailP]
    by_cases hcond : ((dropTrailP p rest).isEmpty && p a) = true
    · rw [if_pos hcond]; rfl
    · rw [if_neg hcond]
      have hrec := ih (noDH_tail h)
      cases hr : dropTrailP p rest with
      | nil => rfl
      | cons x r1 =>
        cases rest with
        | nil => simp [dropTrailP] at hr
        | cons b r2 =>
          have hx : x = b := by
            simp only [dropTrailP] at hr
            by_cases hc2 : ((dropTrailP p r2).isEmpty && p b) = true
            · rw [if_pos hc2] at hr; cases hr
            · rw [if_neg hc2] at hr
              exact (List.cons_eq_cons.1 hr).1.symm
          subst hx
          simp only [noDoubleHyphen, Bool.and_eq_true]
          constructor
          · simp only [noDoubleHyphen, Bool.and_eq_true] at h
            exact h.1
          · rw [hr] at hrec
            exact hrec

/-- Helper: a nonempty string over letters, digits and hyphens, with no two
adjacent hyphens and no edge hyphen, is accepted by the slug-shape decision
procedure. -/
theorem slugRun_of_props :
    ∀ s : Str, (∀ c ∈ s, isAlnumLower c = true ∨ c = '-') →
      noDoubleHyphen s = true →
      s.getLast? ≠ some '-' →
      ∀ b : Bool, (b = true → s.head? ≠ some '-' ∧ s ≠ []) →
      slugRun b s = true := by
  intro s
  induction s with
  | nil =>
    intro _ _ _ b hb
    cases b with
    | false => rfl
    | true => exact absurd rfl (hb rfl).2
  | cons c rest ih =>
    intro hcs hnd hlast b hb
    rcases hcs c (List.mem_cons_self c rest) with hal | hhy
    · simp only [slugRun, hal, if_true]
      apply ih (fun x hx => hcs x (List.mem_cons_of_mem _ hx)) (noDH_tail hnd)
      · cases rest with
        | nil => simp
        | cons x r1 =>
          rw [List.getLast?_cons_cons] at hlast
          exact hlast
      · intro hfalse
        cases hfalse
    · subst hhy
      have hnal : isAlnumLower '-' = false := by decide
      cases b with
      | true =>
        exact absurd (rfl : ('-' :: rest).head? = some '-') (hb rfl).1
      | false =>
        simp only [slugRun, hnal, Bool.false_eq_true, if_false, if_pos (by rfl : ('-' == '-') = true),
          Bool.not_false, Bool.true_and]
        have hrestne : rest ≠ [] := by
          intro hh
          subst hh
          simp at hlast
        apply ih (fun x hx => hcs x (List.mem_cons_of_mem _ hx)) (noDH_tail hnd)
        · cases rest with
          | nil => exact absurd rfl hrestne
          | cons x r1 =>
            rw [List.getLast?_cons_cons] at hlast
            exact hlast
        · intro _
          refine ⟨?_, hrestne⟩
          cases rest with
          | nil => exact absurd rfl hrestne
          | cons x r1 =>
            simp only [noDoubleHyphen, Bool.and_eq_true] at hnd
            simp only [List.head?_cons]
            intro hcontra
            rw [Option.some_inj] at hcontra
            subst hcontra
            simp at hnd

/-- Helper: combined shape conditions give acceptance by the slug decision
procedure. -/
theorem matchesSlugRe_of_props (s : Str)
    (hchar : ∀ c ∈ s, isAlnumLower c = true ∨ c = '-')
    (hnd : noDoubleHyphen s = true)
    (hhead : s.head? ≠ some '-')
    (hlast : s.getLast? ≠ some '-')
    (hne : s ≠ []) : matchesSlugRe s = true := by
  unfold matchesSlugRe
  rw [Bool.and_eq_true]
  constructor
  · simpa using hne
  · exact slugRun_of_props s hchar hnd hlast true (fun _ => ⟨hhead, hne⟩)

/-- Helper: a nonempty slug produced by the topic slugifier matches the
slug-shape pattern of one or more alphanumeric groups separated by single
hyphens. -/
theorem matchesSlugRe_slugifyTopic (t : Str) (h : slugifyTopic t ≠ []) :
    matchesSlugRe (slugifyTopic t) = true := by
  have hform : slugifyTopic t =
      dropTrailP (· == '-')
        ((collapseGo false
            ((((t.map Char.toLower).map fun c => if c = ' ' then '-' else c).map
                fun c => if c = '/' then '-' else c).filter
              fun c => isAlnumLower c || c == '-')).dropWhile (· == '-')) := rfl
  set u := (((t.map Char.toLower).map fun c => if c = ' ' then '-' else c).map
      fun c => if c = '/' then '-' else c).filter fun c => isAlnumLower c || c == '-' with hu
  rw [hform] at h ⊢
  apply matchesSlugRe_of_props
  · intro c hc
    have hc2 : c ∈ (collapseGo false u).dropWhile (· == '-') :=
      mem_dropTrailP _ _ c hc
    have hc3 : c ∈ collapseGo false u := mem_dropWhile _ _ c hc2
    have hc4 : c ∈ u := mem_collapseGo u false c hc3
    have hc5 := (List.mem_filter.1 hc4).2
    simp only [Bool.or_eq_true] at hc5
    rcases hc5 with h1 | h2
    · exact Or.inl h1
    · exact Or.inr (by simpa using h2)
  · apply noDH_dropTrailP
    apply noDH_dropWhile
    exact noDH_collapseGo u false
  · intro hcontra
    have h2 := dropTrailP_head _ _ _ hcontra
    have h3 := dropWhile_head_not _ _ _ h2
    simp at h3
  · intro hcontra
    have h2 := dropTrailP_getLast_not _ _ _ hcontra
    simp at h2
  · exact h

/-- Helper: every topic candidate matches the slug-shape pattern and is
longer than 2 characters, because the source only appends slugs passing its
guards. -/
theorem mem_topicCandidates {raw t : Str} (h : t ∈ topicCandidates raw) :
    matchesSlugRe t = true ∧ 2 < t.length := by
  unfold topicCandidates at h
  obtain ⟨g, _, hg⟩ := List.mem_filterMap.1 h
  simp only [topicOfLabel] at hg
  split_ifs at hg with h1 h2
  · rw [Option.some_inj] at hg
    subst hg
    exact ⟨matchesSlugRe_slugifyTopic _ h2.1, h2.2⟩

/-- Helper: the deduplication keeps only elements of its input that are not
in the seen accumulator. -/
theorem mem_dedupAux :
    ∀ (l seen : List Str) (t : Str), t ∈ dedupKeepFirstAux seen l → t ∈ l ∧ t ∉ seen := by
  intro l
  induction l with
  | nil => intro seen t h; simp [dedupKeepFirstAux] at h
  | cons a rest ih =>
    intro seen t h
    simp only [dedupKeepFirstAux] at h
    by_cases ha : a ∈ seen
    · rw [if_pos ha] at h
      obtain ⟨h1, h2⟩ := ih seen t h
      exact ⟨List.mem_cons_of_mem _ h1, h2⟩
    · rw [if_neg ha] at h
      rcases List.mem_cons.1 h with h1 | h2
      · subst h1
        exact ⟨List.mem_cons_self _ _, ha⟩
      · obtain ⟨h1, h3⟩ := ih (a :: seen) t h2
        exact ⟨List.mem_cons_of_mem _ h1, fun hc => h3 (List.mem_cons_of_mem _ hc)⟩

/-- Helper: the deduplication emits no duplicates. -/
theorem nodup_dedupAux : ∀ (l seen : List Str), (dedupKeepFirstAux seen l).Nodup := by
  intro l
  induction l with
  | nil => intro seen; exact List.nodup_nil
  | cons a rest ih =>
    intro seen
    simp only [dedupKeepFirstAux]
    by_cases ha : a ∈ seen
    · rw [if_pos ha]; exact ih seen
    · rw [if_neg ha]
      refine List.nodup_cons.2 ⟨?_, ih (a :: seen)⟩
      intro hc
      exact (mem_dedupAux rest (a :: seen) a hc).2 (List.mem_cons_self _ _)

/-- Helper: the deduplication emits elements in strictly increasing order of
their first occurrence in its input, which is the first-seen order. -/
theorem pairwise_dedupAux :
    ∀ (l seen : List Str),
      (dedupKeepFirstAux seen l).Pairwise (fun a b => firstIdx a l < firstIdx b l) := by
  intro l
  induction l with
  | nil => intro seen; exact List.Pairwise.nil
  | cons t rest ih =>
    intro seen
    simp only [dedupKeepFirstAux]
    by_cases ht : t ∈ seen
    · rw [if_pos ht]
      apply List.Pairwise.imp_of_mem ?_ (ih seen)
      intro a b ha hb hab
      have ha2 := mem_dedupAux rest seen a ha
      have hb2 := mem_dedupAux rest seen b hb
      have hat : ¬ t = a := fun hh => ha2.2 (hh ▸ ht)
      have hbt : ¬ t = b := fun hh => hb2.2 (hh ▸ ht)
      simp only [firstIdx, if_neg hat, if_neg hbt]
      omega
    · rw [if_neg ht]
      rw [List.pairwise_cons]
      constructor
      · intro b hb
        have hb2 := mem_dedupAux rest (t :: seen) b hb
        have hbt : ¬ t = b := fun hh => hb2.2 (hh ▸ List.mem_cons_self t seen)
        have e1 : firstIdx t (t :: rest) = 0 := by simp [firstIdx]
        have e2 : firstIdx b (t :: rest) = firstIdx b rest + 1 := by simp [firstIdx, hbt]
        rw [e1, e2]
        omega
      · apply List.Pairwise.imp_of_mem ?_ (ih (t :: seen))
        intro a b ha hb hab
        have ha2 := mem_dedupAux rest (t :: seen) a ha
        have hb2 := mem_dedupAux rest (t :: seen) b hb
        have hat : ¬ t = a := fun hh => ha2.2 (hh ▸ List.mem_cons_self t seen)
        have hbt : ¬ t = b := fun hh => hb2.2 (hh ▸ List.mem_cons_self t seen)
        simp only [firstIdx, if_neg hat, if_neg hbt]
        omega

/-- C6: for every input, the topic list produced by the normalizer has at
most 15 entries, contains no duplicates, every entry matches the slug-shape
pattern of lower-case alphanumeric groups separated by single hyphens and is
longer than 2 characters, and entries appear in strictly increasing order of
first occurrence among the extracted candidates, which is the first-seen
insertion order. -/
theorem extract_topics_invariants (raw : Str) :
    (extract_topics raw).length ≤ 15 ∧
      (extract_topics raw).Nodup ∧
      (∀ t ∈ extract_topics raw, matchesSlugRe t = true ∧ 2 < t.length) ∧
      (extract_topics raw).Pairwise
        (fun a b => firstIdx a (topicCandidates raw) < firstIdx b (topicCandidates raw)) := by
  refine ⟨?_, ?_, ?_, ?_⟩
  · simp only [extract_topics, List.length_take]
    exact min_le_left _ _
  · exact List.Nodup.sublist (List.take_sublist _ _) (nodup_dedupAux _ _)
  · intro t ht
    simp only [extract_topics] at ht
    have h1 : t ∈ dedupKeepFirstAux [] (topicCandidates raw) :=
      (List.take_sublist _ _).subset ht
    exact mem_topicCandidates (mem_dedupAux _ _ _ h1).1
  · exact List.Pairwise.sublist (List.take_sublist _ _) (pairwise_dedupAux _ _)

/-- Witness for C6 at a concrete bulleted answer yielding one topic. -/
theorem extract_topics_invariants_witness :
    w6topic ∈ extract_topics w6raw ∧ matchesSlugRe w6topic = true ∧ 2 < w6topic.length :=
  ⟨by decide, (extract_topics_invariants w6raw).2.2.1 w6topic (by decide)⟩
